import Mathlib

/-!
Verification of the AI-Recipe-Builder application (`src/app.py`) against its
natural-language specification.  The development is a shallow embedding:
Python strings are `List Char`, machine floats that stay exact (nutrition
table values, PDF coordinates) are `ℚ` respectively `ℤ`, exceptions are
`Except`/`Option`, and the persisted JSON document is modelled at the
granularity the external `json` library is specified at (absent /
well-formed list of records / malformed).
-/

/-! ### Recipe store (src/app.py lines 18-40)

The store keeps an ordered list of recipe records in one JSON file.  The
`json` library is an external collaborator (spec §1), so the on-disk file is
modelled by its three observationally distinct states: no file, a file that
parses to a list of records, and a file whose content is not valid JSON
(`json.loads` raises in that case).  Records themselves are opaque (`α`). -/

inductive Document (α : Type) : Type
  | absent : Document α
  | wellFormed (recs : List α) : Document α
  | malformed : Document α
deriving DecidableEq

inductive StoreError : Type
  | parseError : StoreError
deriving DecidableEq

/-- Python `load_saved_recipes` (lines 23-26): returns `[]` when the file does
not exist, the parsed list when it parses, and raises (here: `.error`) when
`json.loads` fails on a malformed document. -/
def load_saved_recipes {α : Type} : Document α → Except StoreError (List α)
  | .absent => .ok []
  | .wellFormed recs => .ok recs
  | .malformed => .error .parseError

/-- Python `save_all_recipes` (lines 28-29): whole-document overwrite with the
JSON serialization of the given list. -/
def save_all_recipes {α : Type} (recipes : List α) : Document α :=
  .wellFormed recipes

/-- Python `add_recipe` (lines 31-34): load, `insert(0, recipe_obj)`, save.
The result is the new state of the persisted document together with the
exception, if any, that escaped; when `load_saved_recipes` raises, the save
step never runs, so the document is returned unchanged. -/
def add_recipe {α : Type} (recipe_obj : α) (d : Document α) :
    Document α × Option StoreError :=
  match load_saved_recipes d with
  | .error e => (d, some e)
  | .ok recipes => (save_all_recipes (recipe_obj :: recipes), none)

/-- Python `delete_recipe` (lines 36-40): load, and only when
`0 <= index < len(recipes)` pop the element at `index` and save; an
out-of-range index is silently ignored (no save, no error). -/
def delete_recipe {α : Type} (index : ℤ) (d : Document α) :
    Document α × Option StoreError :=
  match load_saved_recipes d with
  | .error e => (d, some e)
  | .ok recipes =>
    if 0 ≤ index ∧ index < (recipes.length : ℤ) then
      (save_all_recipes (recipes.eraseIdx index.toNat), none)
    else
      (d, none)

/-! ### Python string primitives used by the heuristics

`str.strip` / `str.lower` / `str.split()` / `str.splitlines` are modelled on
`List Char`.  `isSpaceChar` is the ASCII whitespace set Python strips
(space, tab, newline, carriage return, vertical tab, form feed); the rare
extra Unicode whitespace and the exotic `splitlines` boundaries
(U+001C-U+001E, U+0085, U+2028, U+2029) are outside every input considered
here and are not modelled. -/

def isSpaceChar (c : Char) : Bool :=
  c.toNat = 32 || c.toNat = 9 || c.toNat = 10 || c.toNat = 13 ||
    c.toNat = 11 || c.toNat = 12

/-- Python `str.strip()`: drop leading and trailing whitespace. -/
def pyStrip (l : List Char) : List Char :=
  ((l.dropWhile isSpaceChar).reverse.dropWhile isSpaceChar).reverse

/-- First element of Python `s.split()` (split on whitespace runs, empties
dropped): `none` when the string has no non-whitespace character, in which
case Python's `[0]` raises `IndexError`. -/
def firstToken (l : List Char) : Option (List Char) :=
  match l.dropWhile isSpaceChar with
  | [] => none
  | c :: rest => some ((c :: rest).takeWhile (fun d => !isSpaceChar d))

/-- Helper for Python `str.splitlines()`: accumulates the current line
(reversed) and splits at `\r\n`, `\n` or `\r`; a terminal line break does not
open a final empty line. -/
def splitlinesAux : List Char → List Char → List (List Char)
  | acc, [] => [acc.reverse]
  | acc, '\r' :: '\n' :: rest =>
    acc.reverse :: (match rest with | [] => [] | _ :: _ => splitlinesAux [] rest)
  | acc, '\n' :: rest =>
    acc.reverse :: (match rest with | [] => [] | _ :: _ => splitlinesAux [] rest)
  | acc, '\r' :: rest =>
    acc.reverse :: (match rest with | [] => [] | _ :: _ => splitlinesAux [] rest)
  | acc, c :: rest => splitlinesAux (c :: acc) rest

/-- Python `str.splitlines()`; the empty string yields no lines. -/
def pySplitlines : List Char → List (List Char)
  | [] => []
  | l => splitlinesAux [] l

/-! ### Nutrition estimator (src/app.py lines 63-101)

All table entries are decimal numbers with at most one fractional digit and
are exactly representable both as binary floats and as rationals; totals,
the division by `max(1, servings)` and the final one-decimal rounding are
modelled in `ℚ`.  Python's `round` is round-half-to-even; on these exact
decimal values the binary-float representation error that can perturb
`round` on a tie never changes any value a claim mentions. -/

structure Macros : Type where
  cal : ℚ
  protein : ℚ
  fat : ℚ
  carb : ℚ
deriving DecidableEq

/-- The fixed per-ingredient reference table `NUTRITION_DB` (lines 63-80). -/
def NUTRITION_DB : List (List Char × Macros) :=
  [("chicken".data, ⟨165, 31, 36/10, 0⟩),
   ("rice".data, ⟨130, 24/10, 2/10, 28⟩),
   ("pasta".data, ⟨131, 5, 11/10, 25⟩),
   ("tomato".data, ⟨18, 9/10, 2/10, 39/10⟩),
   ("onion".data, ⟨40, 11/10, 1/10, 93/10⟩),
   ("potato".data, ⟨77, 2, 1/10, 17⟩),
   ("cheese".data, ⟨402, 25, 33, 13/10⟩),
   ("egg".data, ⟨155, 13, 11, 11/10⟩),
   ("milk".data, ⟨42, 34/10, 1, 5⟩),
   ("butter".data, ⟨717, 9/10, 81, 1/10⟩),
   ("broccoli".data, ⟨34, 28/10, 4/10, 7⟩),
   ("quinoa".data, ⟨120, 44/10, 19/10, 21⟩),
   ("beans".data, ⟨347, 21, 12/10, 63⟩),
   ("avocado".data, ⟨160, 2, 15, 9⟩)]

/-- The fixed default contribution for an unmatched ingredient
(lines 94-98): 20 kcal, 0.5 g protein, 0.1 g fat, 1 g carb. -/
def defaultMacros : Macros := ⟨20, 1/2, 1/10, 1⟩

def addMacros (a b : Macros) : Macros :=
  ⟨a.cal + b.cal, a.protein + b.protein, a.fat + b.fat, a.carb + b.carb⟩

/-- One loop iteration of `estimate_nutrition` (lines 85-98):
`key = ing.strip().lower().split()[0]` followed by the table lookup or the
default.  `none` models the `IndexError` Python raises when `ing` has no
non-whitespace character. -/
def contribution (ing : List Char) : Option Macros :=
  match firstToken ((pyStrip ing).map Char.toLower) with
  | none => none
  | some key =>
    match NUTRITION_DB.lookup key with
    | some d => some d
    | none => some defaultMacros

/-- The summation loop of `estimate_nutrition`: totals starting from all
zeroes; the first ingredient that raises aborts the whole call. -/
def totalNutrition (ingredients_list : List (List Char)) : Option Macros :=
  ingredients_list.foldlM
    (fun tot ing => (contribution ing).map (addMacros tot)) ⟨0, 0, 0, 0⟩

/-- Python `round` on an exact rational: round-half-to-even. -/
def pyRound (q : ℚ) : ℤ :=
  if q - ⌊q⌋ < 1/2 then ⌊q⌋
  else if 1/2 < q - ⌊q⌋ then ⌊q⌋ + 1
  else if 2 ∣ ⌊q⌋ then ⌊q⌋ else ⌊q⌋ + 1

/-- Python `round(v, 1)`: round to one decimal place. -/
def round1 (q : ℚ) : ℚ := (pyRound (10 * q) : ℚ) / 10

/-- Python `estimate_nutrition` (lines 82-101): sum the per-ingredient
contributions, then `round(v / max(1, servings), 1)` on each component. -/
def estimate_nutrition (ingredients_list : List (List Char)) (servings : ℤ) :
    Option Macros :=
  (totalNutrition ingredients_list).map fun tot =>
    let s : ℚ := ((max 1 servings : ℤ) : ℚ)
    ⟨round1 (tot.cal / s), round1 (tot.protein / s),
     round1 (tot.fat / s), round1 (tot.carb / s)⟩

/-! ### PDF exporter (src/app.py lines 43-60)

`reportlab` is an external collaborator; what the code controls is the page
layout loop, whose coordinates are the exact small binary floats
`letter = (612.0, 792.0)`, `60`, `30`, `14`, `50`, so the cursor arithmetic
is carried out in `ℤ`.  `drawString` never fails and marks the current page
as non-empty; `showPage` stores the current page and opens a fresh empty
one; `Canvas.save` additionally stores the current page exactly when it is
non-empty.  The state below tracks the cursor, the stored page count and
whether the current page has content. -/

structure Canv : Type where
  y : ℤ
  emitted : ℕ
  code : Bool
deriving DecidableEq

/-- One iteration of the line loop (lines 52-57): draw the line (the current
page becomes non-empty), move the cursor down 14 points, and when it passes
below the 50-point margin store the page and reset the cursor to
`height - 60 = 732`. -/
def pdfStep (s : Canv) : Canv :=
  let s' : Canv := { s with code := true }
  let y := s'.y - 14
  if y < 50 then { y := 792 - 60, emitted := s'.emitted + 1, code := false }
  else { s' with y := y }

/-- Canvas state after the title block (lines 47-51): title drawn at
`y = 792 - 60`, then `y -= 30`.  The current (first) page already has
content. -/
def pdfInit : Canv := { y := 792 - 60 - 30, emitted := 0, code := true }

/-- Python `recipe_to_pdf_bytes` (lines 43-60), abstracted to the canvas
state it ends in: the line loop runs once per line of `recipe_text`,
independently of the line's characters. -/
def recipe_to_pdf_bytes (recipe_text : List Char) (title : List Char) : Canv :=
  (pySplitlines recipe_text).foldl (fun s _ => pdfStep s) pdfInit

/-- Pages in the produced document: the stored pages plus the final page,
which `Canvas.save` stores exactly when it has content.  `title` is always
drawn, so the result is at least 1 for every input. -/
def pdfPages (s : Canv) : ℕ :=
  s.emitted + (if s.code then 1 else 0)

/-! ### Shopping-list extractor (src/app.py lines 341-356 and 419-422)

Phrases are collected into a Python `dict` mapping phrase to occurrence
count; a `dict` preserves insertion order, so it is modelled as an
association list that appends new keys at the end. -/

/-- Python's `\w` (re.UNICODE restricted to ASCII inputs). -/
def isWordChar (c : Char) : Bool :=
  c.isAlphanum || c = '_'

/-- Scanner for `re.split(r',|\band\b', line)` (line 421): walk the string
left to right; a comma always matches, and the literal word `and` matches
when the previous character (tracked by `prevW`) is not a word character
and the following one, if any, is not either.  Scanning resumes after each
match. -/
def reSplitAux : Bool → List Char → List Char → List (List Char)
  | _, acc, [] => [acc.reverse]
  | _, acc, ',' :: rest => acc.reverse :: reSplitAux false [] rest
  | prevW, acc, 'a' :: 'n' :: 'd' :: rest =>
    if !prevW && (match rest with | [] => true | c :: _ => !isWordChar c) then
      acc.reverse :: reSplitAux true [] rest
    else
      reSplitAux true ('a' :: acc) ('n' :: 'd' :: rest)
  | _, acc, c :: rest => reSplitAux (isWordChar c) (c :: acc) rest

/-- Python `re_split_commas` (lines 419-422): split on commas and the word
`and`, strip every part, drop the parts that are empty after stripping. -/
def re_split_commas (line : List Char) : List (List Char) :=
  ((reSplitAux false [] line).map pyStrip).filter (fun p => p ≠ [])

/-- The unit keywords of line 349, with the duplicated `"pieces"` kept as in
the source (duplication is invisible to `any`). -/
def unitKeywords : List (List Char) :=
  ["cup".data, "tsp".data, "tbsp".data, "g".data, "kg".data, "ml".data,
   "slice".data, "pieces".data, "pieces".data, "pinch".data]

/-- The common ingredient-name keywords of line 355. -/
def nameKeywords : List (List Char) :=
  ["tomato".data, "onion".data, "garlic".data, "chicken".data,
   "rice".data, "pasta".data, "cheese".data, "egg".data]

/-- Python `items[p] = items.get(p, 0) + 1` on an insertion-ordered dict. -/
def bumpItem (items : List (List Char × ℕ)) (k : List Char) :
    List (List Char × ℕ) :=
  if items.any (fun e => e.1 = k) then
    items.map (fun e => if e.1 = k then (e.1, e.2 + 1) else e)
  else
    items ++ [(k, 1)]

/-- The per-line body of the extraction loop (lines 348-356): a line that
contains a unit keyword (case-insensitively) or a comma is split by
`re_split_commas` and every stripped fragment longer than 2 characters is
counted; otherwise a line containing a common ingredient name is counted
whole, stripped. -/
def processLine (items : List (List Char × ℕ)) (line : List Char) :
    List (List Char × ℕ) :=
  let low := line.map Char.toLower
  if unitKeywords.any (fun k => decide (k <:+: low)) || line.contains ',' then
    ((re_split_commas line).map pyStrip).foldl
      (fun it p => if 2 < p.length then bumpItem it p else it) items
  else if nameKeywords.any (fun k => decide (k <:+: low)) then
    bumpItem items (pyStrip line)
  else
    items

/-- The extraction as a function of the selected recipe texts: every line of
every selected text feeds `processLine`, starting from the empty dict. -/
def extractShoppingList (texts : List (List Char)) : List (List Char × ℕ) :=
  texts.foldl (fun it t => (pySplitlines t).foldl processLine it) []

/-- Title shown for a recipe text: `rec.get("text","").splitlines()[0]`
(line 344).  For an empty text Python's `[0]` raises while building the
page's selection options already; `headD` is only evaluated on the
non-empty texts any reachable extraction sees. -/
def firstLine (t : List Char) : List Char :=
  (pySplitlines t).headD []

/-- The Shopping List page loop (lines 341-356): iterate over all saved
recipes and process the lines of those whose title is in the selection. -/
def buildShoppingList (recipes : List (List Char))
    (selected : List (List Char)) : List (List Char × ℕ) :=
  recipes.foldl
    (fun it t =>
      if selected.contains (firstLine t) then
        (pySplitlines t).foldl processLine it
      else it)
    []

/-! ### Auxiliary predicates used by the theorems -/

/-- All four macro components are non-negative. -/
def NonnegM (m : Macros) : Prop :=
  0 ≤ m.cal ∧ 0 ≤ m.protein ∧ 0 ≤ m.fat ∧ 0 ≤ m.carb

/-- Every entry of the shopping-list mapping has a whitespace-trimmed key of
length at least 3 and an occurrence count of at least 1. -/
def GoodItems (items : List (List Char × ℕ)) : Prop :=
  ∀ e ∈ items, (pyStrip e.1 = e.1 ∧ 3 ≤ e.1.length) ∧ 1 ≤ e.2

/-! ## Theorems -/

/-! ### C2, C3, C4: the recipe store -/

/-- C2: when the persisted document is not valid structured data, loading
fails with a parse error, and an add or a delete against it fails with the
same error while leaving the persisted document entirely unchanged — the
save step never runs, so no partial overwrite is observable. -/
theorem malformed_document_fails (α : Type) (r : α) (i : ℤ) :
    load_saved_recipes (Document.malformed (α := α)) =
      Except.error StoreError.parseError ∧
    add_recipe r Document.malformed = (Document.malformed, some StoreError.parseError) ∧
    delete_recipe i (Document.malformed (α := α)) =
      (Document.malformed, some StoreError.parseError) :=
  ⟨rfl, rfl, rfl⟩

/-- C3: against any persisted document that currently loads as `prev`,
`add_recipe r` followed by a load yields exactly `r` prepended to `prev`:
the first element is `r` and the rest is `prev` unchanged, in order. -/
theorem add_then_load (α : Type) (d : Document α) (prev : List α) (r : α)
    (h : load_saved_recipes d = Except.ok prev) :
    load_saved_recipes (add_recipe r d).1 = Except.ok (r :: prev) := by
  unfold add_recipe
  rw [h]
  rfl

/-- Witness for C3 at a concrete store: adding 7 in front of [10, 20]. -/
theorem add_then_load_witness :
    load_saved_recipes (add_recipe 7 (Document.wellFormed [10, 20])).1 =
      Except.ok ([7, 10, 20] : List ℤ) :=
  add_then_load ℤ (Document.wellFormed [10, 20]) [10, 20] 7 rfl

/-- C4: for a document loading as `prev`, an in-range `delete_recipe i`
removes exactly the element at position `i` (the saved list is
`prev.take i ++ prev.drop (i+1)`) and raises nothing, while an out-of-range
index (negative or not below the length) is a silent no-op that leaves the
stored document unchanged. -/
theorem delete_recipe_spec (α : Type) (d : Document α) (prev : List α) (i : ℤ)
    (h : load_saved_recipes d = Except.ok prev) :
    (0 ≤ i → i < (prev.length : ℤ) →
      delete_recipe i d =
        (save_all_recipes (prev.take i.toNat ++ prev.drop (i.toNat + 1)), none)) ∧
    ((i < 0 ∨ (prev.length : ℤ) ≤ i) → delete_recipe i d = (d, none)) := by
  unfold delete_recipe
  rw [h]
  constructor
  · intro h0 hlt
    have hin : 0 ≤ i ∧ i < (prev.length : ℤ) := ⟨h0, hlt⟩
    simp only [if_pos hin, List.eraseIdx_eq_take_drop_succ]
  · intro hout
    have hnot : ¬(0 ≤ i ∧ i < (prev.length : ℤ)) := by omega
    simp only [if_neg hnot]

/-- Witness for C4 at a concrete store: deleting index 1 from [5, 6, 7],
and index 5 as an out-of-range no-op. -/
theorem delete_recipe_spec_witness :
    delete_recipe 1 (Document.wellFormed ([5, 6, 7] : List ℤ)) =
      (Document.wellFormed [5, 7], none) ∧
    delete_recipe 5 (Document.wellFormed ([5, 6, 7] : List ℤ)) =
      (Document.wellFormed [5, 6, 7], none) := by
  constructor
  · have h := (delete_recipe_spec ℤ (Document.wellFormed [5, 6, 7]) [5, 6, 7] 1 rfl).1
      (by norm_num) (by norm_num)
    simpa [save_all_recipes] using h
  · have h := (delete_recipe_spec ℤ (Document.wellFormed [5, 6, 7]) [5, 6, 7] 5 rfl).2
      (by norm_num)
    simpa using h

/-! ### C1, C9, C5: the nutrition estimator -/

/-- An element that fails the predicate survives `dropWhile`. -/
theorem mem_dropWhile_of_mem {α : Type} {p : α → Bool} {c : α} :
    ∀ {l : List α}, c ∈ l → p c = false → c ∈ l.dropWhile p
  | [], h, _ => absurd h (List.not_mem_nil c)
  | a :: t, h, hpc => by
    by_cases hpa : p a = true
    · rcases List.mem_cons.mp h with rfl | hct
      · rw [hpa] at hpc; cases hpc
      · rw [List.dropWhile_cons_of_pos hpa]
        exact mem_dropWhile_of_mem hct hpc
    · rw [List.dropWhile_cons_of_neg hpa]
      exact h

/-- A non-whitespace character of `l` survives `pyStrip`. -/
theorem mem_pyStrip {c : Char} {l : List Char} (hc : c ∈ l)
    (hpc : isSpaceChar c = false) : c ∈ pyStrip l := by
  unfold pyStrip
  rw [List.mem_reverse]
  exact mem_dropWhile_of_mem (List.mem_reverse.mpr (mem_dropWhile_of_mem hc hpc)) hpc

/-- A string with a non-whitespace character has a first token. -/
theorem firstToken_isSome {l : List Char} (h : ∃ c ∈ l, isSpaceChar c = false) :
    ∃ t, firstToken l = some t := by
  obtain ⟨c, hc, hs⟩ := h
  have hmem : c ∈ l.dropWhile isSpaceChar := mem_dropWhile_of_mem hc hs
  unfold firstToken
  cases hd : l.dropWhile isSpaceChar with
  | nil => rw [hd] at hmem; cases hmem
  | cons a t => exact ⟨_, rfl⟩

/-- `Char.toLower` maps whitespace to itself and letters to letters, so it
does not change whether a character is whitespace. -/
theorem isSpaceChar_toLower (c : Char) : isSpaceChar c.toLower = isSpaceChar c := by
  have hdef : c.toLower =
      if c.toNat ≥ 65 ∧ c.toNat ≤ 90 then Char.ofNat (c.toNat + 32) else c := rfl
  rw [hdef]
  split
  · rename_i h
    obtain ⟨h1, h2⟩ := h
    have hc : isSpaceChar c = false := by
      simp only [isSpaceChar, Bool.or_eq_false_iff, decide_eq_false_iff_not]
      omega
    rw [hc]
    have h1' : 65 ≤ c.toNat := h1
    have h2' : c.toNat ≤ 90 := h2
    generalize hm : c.toNat + 32 = m
    have hm1 : 97 ≤ m := by omega
    have hm2 : m ≤ 122 := by omega
    interval_cases m <;> decide
  · rfl

/-- An ingredient with a non-whitespace character yields a contribution
(the loop body cannot raise on it). -/
theorem contribution_isSome {ing : List Char}
    (h : ∃ c ∈ ing, isSpaceChar c = false) : ∃ m, contribution ing = some m := by
  obtain ⟨c, hc, hs⟩ := h
  have hlow : Char.toLower c ∈ (pyStrip ing).map Char.toLower :=
    List.mem_map_of_mem Char.toLower (mem_pyStrip hc hs)
  have hlows : isSpaceChar (Char.toLower c) = false := by
    rw [isSpaceChar_toLower]; exact hs
  obtain ⟨t, ht⟩ := firstToken_isSome ⟨Char.toLower c, hlow, hlows⟩
  have hred : contribution ing =
      match NUTRITION_DB.lookup t with
      | some d => some d
      | none => some defaultMacros := by
    unfold contribution
    rw [ht]
  rw [hred]
  cases NUTRITION_DB.lookup t with
  | none => exact ⟨_, rfl⟩
  | some d => exact ⟨_, rfl⟩

/-- The summation loop succeeds when every iteration does. -/
theorem foldl_contribution_isSome :
    ∀ (l : List (List Char)) (init : Macros),
      (∀ ing ∈ l, ∃ m, contribution ing = some m) →
      ∃ t, l.foldlM (fun tot ing => (contribution ing).map (addMacros tot)) init = some t
  | [], init, _ => ⟨init, rfl⟩
  | a :: l, init, h => by
    obtain ⟨m, hm⟩ := h a (List.mem_cons_self a l)
    obtain ⟨t, ht⟩ := foldl_contribution_isSome l (addMacros init m)
      (fun ing hing => h ing (List.mem_cons_of_mem a hing))
    exact ⟨t, by simp [List.foldlM_cons, hm, ht]⟩

/-- C1 counterexample: on the list containing one whitespace-only ingredient
string, the estimator does not return a numeric result — Python's
`ing.strip().lower().split()[0]` raises `IndexError` (modelled by `none`),
refuting the claim for lists containing empty or whitespace-only strings. -/
theorem estimate_nutrition_whitespace_raises :
    estimate_nutrition [" ".data] 1 = none := rfl

/-- C1 (amended): for every list of ingredient strings each containing at
least one non-whitespace character and every integer servings value, the
estimator returns a numeric result for all four macros; any ingredient whose
first whitespace-delimited lowercased token is not in the fixed table
contributes exactly 20 kcal, 0.5 g protein, 0.1 g fat and 1 g carb; and
servings ≤ 0 is clamped to 1 before division. -/
theorem estimate_nutrition_total (l : List (List Char)) (s : ℤ)
    (h : ∀ ing ∈ l, ∃ c ∈ ing, isSpaceChar c = false) :
    (∃ m, estimate_nutrition l s = some m) ∧
    (∀ ing k, firstToken ((pyStrip ing).map Char.toLower) = some k →
      NUTRITION_DB.lookup k = none → contribution ing = some defaultMacros) ∧
    (s ≤ 0 → estimate_nutrition l s = estimate_nutrition l 1) := by
  refine ⟨?_, ?_, ?_⟩
  · obtain ⟨t, ht⟩ := foldl_contribution_isSome l ⟨0, 0, 0, 0⟩
      (fun ing hing => contribution_isSome (h ing hing))
    exact ⟨_, by rw [estimate_nutrition, totalNutrition, ht]; rfl⟩
  · intro ing k hk hnone
    have hred : contribution ing =
        match NUTRITION_DB.lookup k with
        | some d => some d
        | none => some defaultMacros := by
      unfold contribution
      rw [hk]
    rw [hred, hnone]
  · intro hs
    have h1 : max 1 s = 1 := by omega
    unfold estimate_nutrition
    rw [h1]
    norm_num

/-- Witness for C1 (amended): an unmatched one-token ingredient at
servings 0 — the call succeeds, the contribution is the default, and
servings 0 behaves as servings 1. -/
theorem estimate_nutrition_total_witness :
    contribution "yuzu".data = some defaultMacros ∧
    estimate_nutrition ["yuzu".data] 0 = estimate_nutrition ["yuzu".data] 1 := by
  have W := estimate_nutrition_total ["yuzu".data] 0 (by decide)
  exact ⟨W.2.1 "yuzu".data "yuzu".data rfl rfl, W.2.2 (by norm_num)⟩

/-- C9: the estimator on the single ingredient list ["chicken"] at
servings 1 returns a calories component of exactly 165.0 — the table's
calorie entry for chicken divided by 1 and rounded to one decimal. -/
theorem estimate_nutrition_chicken :
    (estimate_nutrition ["chicken".data] 1).map Macros.cal = some 165 := by
  have h : totalNutrition ["chicken".data] =
      some (addMacros ⟨0, 0, 0, 0⟩ ⟨165, 31, 36/10, 0⟩) := rfl
  rw [estimate_nutrition, h]
  norm_num [round1, pyRound, addMacros]

/-- Rounding to the nearest integer moves a rational by at most 1/2. -/
theorem pyRound_sub_le (q : ℚ) : |(pyRound q : ℚ) - q| ≤ 1/2 := by
  have h0 := Int.floor_le q
  have h1 := Int.lt_floor_add_one q
  unfold pyRound
  split
  · rename_i h
    rw [abs_le]
    constructor <;> push_cast <;> linarith
  · split
    · rename_i h h'
      rw [abs_le]
      push_cast
      constructor <;> linarith
    · split <;>
        (rename_i h h' _
         rw [abs_le]
         push_cast
         constructor <;> linarith)

/-- Rounding a non-negative rational yields a non-negative integer. -/
theorem pyRound_nonneg (q : ℚ) (h : 0 ≤ q) : 0 ≤ pyRound q := by
  have h0 : (0 : ℤ) ≤ ⌊q⌋ := Int.floor_nonneg.mpr h
  unfold pyRound
  split
  · exact h0
  · split
    · omega
    · split <;> omega

/-- One-decimal rounding moves a rational by at most 1/20. -/
theorem round1_sub_le (q : ℚ) : |round1 q - q| ≤ 1/20 := by
  have h := pyRound_sub_le (10 * q)
  have heq : round1 q - q = ((pyRound (10 * q) : ℚ) - 10 * q) / 10 := by
    rw [round1]; ring
  rw [heq, abs_div]
  rw [show |(10 : ℚ)| = 10 by norm_num]
  linarith

/-- One-decimal rounding preserves non-negativity. -/
theorem round1_nonneg (q : ℚ) (h : 0 ≤ q) : 0 ≤ round1 q := by
  have := pyRound_nonneg (10 * q) (by linarith)
  rw [round1]
  positivity

/-- Rounding `x/2` differs from half of rounding `x` by at most one decimal
rounding step. -/
theorem round1_halving (x : ℚ) : |round1 (x / 2) - round1 x / 2| ≤ 1/10 := by
  have h1 := round1_sub_le (x / 2)
  have h2 := round1_sub_le x
  have h3 : |x / 2 - round1 x / 2| ≤ 1/40 := by
    have heq : x / 2 - round1 x / 2 = (x - round1 x) / 2 := by ring
    rw [heq, abs_div, show |(2 : ℚ)| = 2 by norm_num, abs_sub_comm]
    linarith
  calc |round1 (x / 2) - round1 x / 2|
      ≤ |round1 (x / 2) - x / 2| + |x / 2 - round1 x / 2| := abs_sub_le _ _ _
    _ ≤ 1/10 := by linarith

/-- Every entry of the fixed table is non-negative. -/
theorem NUTRITION_DB_nonneg : ∀ p ∈ NUTRITION_DB, NonnegM p.2 := by
  intro p hp
  fin_cases hp <;>
    exact ⟨by norm_num, by norm_num, by norm_num, by norm_num⟩

/-- Every per-ingredient contribution is non-negative. -/
theorem contribution_nonneg (ing : List Char) (m : Macros)
    (h : contribution ing = some m) : NonnegM m := by
  cases htok : firstToken ((pyStrip ing).map Char.toLower) with
  | none =>
    have hnone : contribution ing = none := by
      unfold contribution; rw [htok]
    rw [hnone] at h
    cases h
  | some key =>
    have hred : contribution ing =
        match NUTRITION_DB.lookup key with
        | some d => some d
        | none => some defaultMacros := by
      unfold contribution; rw [htok]
    rw [hred] at h
    cases hl : NUTRITION_DB.lookup key with
    | none =>
      rw [hl] at h
      simp only [Option.some.injEq] at h
      subst h
      exact ⟨by norm_num [defaultMacros], by norm_num [defaultMacros],
             by norm_num [defaultMacros], by norm_num [defaultMacros]⟩
    | some d =>
      rw [hl] at h
      simp only [Option.some.injEq] at h
      subst h
      obtain ⟨l₁, l₂, hdb, -⟩ := List.lookup_eq_some_iff.mp hl
      have hmem : (key, d) ∈ NUTRITION_DB := by
        rw [hdb]; exact List.mem_append_right _ (List.mem_cons_self _ _)
      exact NUTRITION_DB_nonneg (key, d) hmem

/-- The summation loop preserves non-negativity of the totals. -/
theorem foldl_contribution_nonneg :
    ∀ (l : List (List Char)) (init t : Macros), NonnegM init →
      l.foldlM (fun tot ing => (contribution ing).map (addMacros tot)) init = some t →
      NonnegM t
  | [], init, t, hinit, ht => by
    cases ht
    exact hinit
  | a :: l, init, t, hinit, ht => by
    rw [List.foldlM_cons] at ht
    obtain ⟨b, hb, hrest⟩ := Option.bind_eq_some.mp ht
    obtain ⟨m, hm, rfl⟩ := Option.map_eq_some'.mp hb
    have hmn := contribution_nonneg a m hm
    obtain ⟨i1, i2, i3, i4⟩ := hinit
    obtain ⟨m1, m2, m3, m4⟩ := hmn
    exact foldl_contribution_nonneg l (addMacros init m) t
      ⟨by simpa [addMacros] using add_nonneg i1 m1,
       by simpa [addMacros] using add_nonneg i2 m2,
       by simpa [addMacros] using add_nonneg i3 m3,
       by simpa [addMacros] using add_nonneg i4 m4⟩ hrest

/-- C5: whenever the estimator is defined at servings s ≥ 1 (and at 2s), all
four per-serving macro values are non-negative, and each value at servings
2s equals half the value at servings s up to the one-decimal rounding
tolerance. -/
theorem estimate_nonneg_halves (l : List (List Char)) (s : ℤ) (hs : 1 ≤ s)
    (m m2 : Macros)
    (h : estimate_nutrition l s = some m)
    (h2 : estimate_nutrition l (2 * s) = some m2) :
    (0 ≤ m.cal ∧ 0 ≤ m.protein ∧ 0 ≤ m.fat ∧ 0 ≤ m.carb) ∧
    (|m2.cal - m.cal / 2| ≤ 1/10 ∧ |m2.protein - m.protein / 2| ≤ 1/10 ∧
     |m2.fat - m.fat / 2| ≤ 1/10 ∧ |m2.carb - m.carb / 2| ≤ 1/10) := by
  rw [estimate_nutrition] at h h2
  obtain ⟨t, ht, hm⟩ := Option.map_eq_some'.mp h
  obtain ⟨t2, ht2, hm2⟩ := Option.map_eq_some'.mp h2
  rw [ht] at ht2
  injection ht2 with he
  subst he
  subst hm
  subst hm2
  have htn : NonnegM t :=
    foldl_contribution_nonneg l ⟨0, 0, 0, 0⟩ t
      ⟨le_refl 0, le_refl 0, le_refl 0, le_refl 0⟩ ht
  obtain ⟨t1, t2q, t3, t4⟩ := htn
  have hmax : max 1 s = s := max_eq_right hs
  have hmax2 : max 1 (2 * s) = 2 * s := max_eq_right (by omega)
  have hspos : (0 : ℚ) < (s : ℚ) := by exact_mod_cast (by omega : (0 : ℤ) < s)
  dsimp only
  rw [hmax, hmax2]
  have hcast : ((2 * s : ℤ) : ℚ) = 2 * (s : ℚ) := by push_cast; ring
  rw [hcast]
  have harg : ∀ x : ℚ, x / (2 * (s : ℚ)) = (x / (s : ℚ)) / 2 := fun x => by
    rw [div_div, mul_comm]
  rw [harg, harg, harg, harg]
  have hdiv : ∀ x : ℚ, 0 ≤ x → 0 ≤ x / (s : ℚ) := fun x hx =>
    div_nonneg hx (le_of_lt hspos)
  exact ⟨⟨round1_nonneg _ (hdiv _ t1), round1_nonneg _ (hdiv _ t2q),
          round1_nonneg _ (hdiv _ t3), round1_nonneg _ (hdiv _ t4)⟩,
         round1_halving _, round1_halving _, round1_halving _, round1_halving _⟩

/-- Witness for C5 at the concrete call estimate(["chicken"], 1) against
estimate(["chicken"], 2). -/
theorem estimate_nonneg_halves_witness :
    (0 ≤ (⟨165, 31, 18/5, 0⟩ : Macros).cal ∧
     0 ≤ (⟨165, 31, 18/5, 0⟩ : Macros).protein ∧
     0 ≤ (⟨165, 31, 18/5, 0⟩ : Macros).fat ∧
     0 ≤ (⟨165, 31, 18/5, 0⟩ : Macros).carb) ∧
    (|(⟨165/2, 31/2, 9/5, 0⟩ : Macros).cal - (⟨165, 31, 18/5, 0⟩ : Macros).cal / 2| ≤ 1/10 ∧
     |(⟨165/2, 31/2, 9/5, 0⟩ : Macros).protein - (⟨165, 31, 18/5, 0⟩ : Macros).protein / 2| ≤ 1/10 ∧
     |(⟨165/2, 31/2, 9/5, 0⟩ : Macros).fat - (⟨165, 31, 18/5, 0⟩ : Macros).fat / 2| ≤ 1/10 ∧
     |(⟨165/2, 31/2, 9/5, 0⟩ : Macros).carb - (⟨165, 31, 18/5, 0⟩ : Macros).carb / 2| ≤ 1/10) := by
  have e1 : estimate_nutrition ["chicken".data] 1 = some ⟨165, 31, 18/5, 0⟩ := by
    have h : totalNutrition ["chicken".data] =
        some (addMacros ⟨0, 0, 0, 0⟩ ⟨165, 31, 36/10, 0⟩) := rfl
    rw [estimate_nutrition, h]
    norm_num [round1, pyRound, addMacros]
  have e2 : estimate_nutrition ["chicken".data] 2 = some ⟨165/2, 31/2, 9/5, 0⟩ := by
    have h : totalNutrition ["chicken".data] =
        some (addMacros ⟨0, 0, 0, 0⟩ ⟨165, 31, 36/10, 0⟩) := rfl
    rw [estimate_nutrition, h]
    norm_num [round1, pyRound, addMacros]
  exact estimate_nonneg_halves ["chicken".data] 1 (by norm_num)
    ⟨165, 31, 18/5, 0⟩ ⟨165/2, 31/2, 9/5, 0⟩ e1 (by exact_mod_cast e2)

/-! ### C8: the PDF page renderer -/

/-- A fold whose step ignores the element is an iteration. -/
theorem foldl_const_iterate {α β : Type} (g : β → β) :
    ∀ (l : List α) (init : β), l.foldl (fun s _ => g s) init = g^[l.length] init
  | [], _ => rfl
  | a :: t, init => by
    rw [List.foldl_cons, List.length_cons, Function.iterate_succ_apply]
    exact foldl_const_iterate g t (g init)

/-- Each line drawn never decreases the number of produced pages. -/
theorem pdfPages_step_mono (s : Canv) : pdfPages s ≤ pdfPages (pdfStep s) := by
  unfold pdfPages pdfStep
  dsimp only
  by_cases hy : s.y - 14 < 50
  · rw [if_pos hy]
    cases hc : s.code <;> simp [hc] <;> omega
  · rw [if_neg hy]
    cases hc : s.code <;> simp [hc] <;> omega

/-- Iterating the line step never decreases the number of produced pages. -/
theorem pdfPages_iterate_mono (s : Canv) :
    ∀ n : ℕ, pdfPages s ≤ pdfPages (pdfStep^[n] s)
  | 0 => le_refl _
  | n + 1 => by
    rw [Function.iterate_succ_apply']
    exact le_trans (pdfPages_iterate_mono s n) (pdfPages_step_mono _)

set_option maxRecDepth 20000 in
/-- C8: for every title and non-empty body the renderer runs to completion
(the loop body is total: splitlines, drawString and the cursor arithmetic
never fail) and the document has at least one page; a body with more lines
than the 47 that fit between the initial cursor position and the bottom
margin yields more than one page; and whenever the cursor would move below
the 50-point margin, the step stores the page and resets the cursor to the
top of a fresh page. -/
theorem recipe_to_pdf_bytes_pages (recipe_text title : List Char)
    (hne : recipe_text ≠ []) (s : Canv) (hcur : s.y - 14 < 50) :
    1 ≤ pdfPages (recipe_to_pdf_bytes recipe_text title) ∧
    (47 < (pySplitlines recipe_text).length →
      2 ≤ pdfPages (recipe_to_pdf_bytes recipe_text title)) ∧
    (pdfStep s).y = 792 - 60 ∧ (pdfStep s).emitted = s.emitted + 1 := by
  rw [recipe_to_pdf_bytes, foldl_const_iterate]
  refine ⟨?_, ?_, ?_, ?_⟩
  · have h := pdfPages_iterate_mono pdfInit (pySplitlines recipe_text).length
    have hinit : pdfPages pdfInit = 1 := rfl
    omega
  · intro hlen
    obtain ⟨k, hk⟩ : ∃ k, (pySplitlines recipe_text).length = k + 48 :=
      ⟨(pySplitlines recipe_text).length - 48, by omega⟩
    rw [hk, Function.iterate_add_apply]
    have h48 : pdfPages (pdfStep^[48] pdfInit) = 2 := by decide
    have h := pdfPages_iterate_mono (pdfStep^[48] pdfInit) k
    omega
  · unfold pdfStep
    dsimp only
    rw [if_pos (by simpa using hcur)]
  · unfold pdfStep
    dsimp only
    rw [if_pos (by simpa using hcur)]

/-- Witness for C8: a one-line body, and a canvas state 44 points above the
bottom on which the step breaks the page. -/
theorem recipe_to_pdf_bytes_pages_witness :
    ("a".data ≠ ([] : List Char)) ∧ ((⟨44, 0, true⟩ : Canv).y - 14 < 50) ∧
    (1 ≤ pdfPages (recipe_to_pdf_bytes "a".data "t".data) ∧
     (47 < (pySplitlines "a".data).length →
       2 ≤ pdfPages (recipe_to_pdf_bytes "a".data "t".data)) ∧
     (pdfStep ⟨44, 0, true⟩).y = 792 - 60 ∧
     (pdfStep ⟨44, 0, true⟩).emitted = (⟨44, 0, true⟩ : Canv).emitted + 1) :=
  ⟨by decide, by decide,
   recipe_to_pdf_bytes_pages "a".data "t".data (by decide) ⟨44, 0, true⟩ (by decide)⟩

/-! ### C6, C7, C10: the shopping-list extractor -/

/-- The keys of the mapping after a bump: unchanged when the key was
present, otherwise the key is appended. -/
theorem keys_bumpItem (items : List (List Char × ℕ)) (k : List Char) :
    (bumpItem items k).map Prod.fst =
      if items.any (fun e => e.1 = k) then items.map Prod.fst
      else items.map Prod.fst ++ [k] := by
  unfold bumpItem
  split
  · rw [List.map_map]
    exact List.map_congr_left fun e _ => by
      dsimp only [Function.comp]
      split <;> rfl
  · rw [List.map_append]
    rfl

/-- Bumping a key makes it a key of the mapping. -/
theorem mem_keys_bumpItem_self (items : List (List Char × ℕ)) (k : List Char) :
    k ∈ (bumpItem items k).map Prod.fst := by
  rw [keys_bumpItem]
  split
  · rename_i hany
    obtain ⟨e, he, hek⟩ := List.any_eq_true.mp hany
    have : e.1 = k := of_decide_eq_true hek
    exact this ▸ List.mem_map_of_mem Prod.fst he
  · exact List.mem_append_right _ (List.mem_cons_self _ _)

/-- Bumping preserves existing keys. -/
theorem mem_keys_bumpItem (items : List (List Char × ℕ)) (k k' : List Char)
    (h : k' ∈ items.map Prod.fst) : k' ∈ (bumpItem items k).map Prod.fst := by
  rw [keys_bumpItem]
  split
  · exact h
  · exact List.mem_append_left _ h

/-- The fragment loop of branch 1 preserves existing keys. -/
theorem mem_keys_fragments :
    ∀ (parts : List (List Char)) (items : List (List Char × ℕ)) (k' : List Char),
      k' ∈ items.map Prod.fst →
      k' ∈ (parts.foldl
        (fun it p => if 2 < p.length then bumpItem it p else it) items).map Prod.fst
  | [], _, _, h => h
  | p :: parts, items, k', h => by
    rw [List.foldl_cons]
    apply mem_keys_fragments parts _ k'
    split
    · exact mem_keys_bumpItem items p k' h
    · exact h

/-- Processing one line preserves existing keys. -/
theorem mem_keys_processLine (items : List (List Char × ℕ)) (line k' : List Char)
    (h : k' ∈ items.map Prod.fst) :
    k' ∈ (processLine items line).map Prod.fst := by
  unfold processLine
  dsimp only
  split
  · exact mem_keys_fragments _ items k' h
  · split
    · exact mem_keys_bumpItem items _ k' h
    · exact h

/-- Folding `processLine` over lines preserves existing keys. -/
theorem mem_keys_foldl_processLine :
    ∀ (lines : List (List Char)) (items : List (List Char × ℕ)) (k' : List Char),
      k' ∈ items.map Prod.fst →
      k' ∈ (lines.foldl processLine items).map Prod.fst
  | [], _, _, h => h
  | a :: lines, items, k', h => by
    rw [List.foldl_cons]
    exact mem_keys_foldl_processLine lines _ k' (mem_keys_processLine items a k' h)

/-- Evaluating the extraction branch on the literal line of the claim:
the line contains `cup` (and a comma), is split at the comma, and both
stripped fragments are longer than 2 characters and get counted. -/
theorem processLine_sample_line (items : List (List Char × ℕ)) :
    processLine items ("2 cups tomato, 1 onion".data) =
      bumpItem (bumpItem items ("2 cups tomato".data)) ("1 onion".data) := rfl

/-- After processing the sample line somewhere in a list of lines, both
phrases are keys of the mapping. -/
theorem mem_keys_lines :
    ∀ (lines : List (List Char)) (items : List (List Char × ℕ)),
      "2 cups tomato, 1 onion".data ∈ lines →
      "2 cups tomato".data ∈ (lines.foldl processLine items).map Prod.fst ∧
      "1 onion".data ∈ (lines.foldl processLine items).map Prod.fst
  | [], _, h => absurd h (List.not_mem_nil _)
  | a :: lines, items, h => by
    rw [List.foldl_cons]
    rcases List.mem_cons.mp h with rfl | hmem
    · constructor
      · apply mem_keys_foldl_processLine
        rw [processLine_sample_line]
        exact mem_keys_bumpItem _ _ _ (mem_keys_bumpItem_self items _)
      · apply mem_keys_foldl_processLine
        rw [processLine_sample_line]
        exact mem_keys_bumpItem_self _ _
    · exact mem_keys_lines lines (processLine items a) hmem

/-- Folding the per-text line loop over further texts preserves existing
keys. -/
theorem mem_keys_foldl_texts :
    ∀ (ts : List (List Char)) (items : List (List Char × ℕ)) (k' : List Char),
      k' ∈ items.map Prod.fst →
      k' ∈ (ts.foldl
        (fun it u => (pySplitlines u).foldl processLine it) items).map Prod.fst
  | [], _, _, h => h
  | u :: ts, items, k', h => by
    rw [List.foldl_cons]
    exact mem_keys_foldl_texts ts _ k' (mem_keys_foldl_processLine _ items k' h)

/-- C6: whenever a selected recipe text contains the line
"2 cups tomato, 1 onion", the extraction result contains at least the
phrases "2 cups tomato" and "1 onion" as two separate keys. -/
theorem shopping_list_sample_phrases (texts : List (List Char)) (t : List Char)
    (ht : t ∈ texts) (hline : "2 cups tomato, 1 onion".data ∈ pySplitlines t) :
    "2 cups tomato".data ∈ (extractShoppingList texts).map Prod.fst ∧
    "1 onion".data ∈ (extractShoppingList texts).map Prod.fst := by
  unfold extractShoppingList
  suffices hgen : ∀ (ts : List (List Char)) (items : List (List Char × ℕ)),
      t ∈ ts →
      "2 cups tomato".data ∈
        (ts.foldl (fun it u => (pySplitlines u).foldl processLine it) items).map Prod.fst ∧
      "1 onion".data ∈
        (ts.foldl (fun it u => (pySplitlines u).foldl processLine it) items).map Prod.fst by
    exact hgen texts [] ht
  intro ts
  induction ts with
  | nil => intro items hmem; exact absurd hmem (List.not_mem_nil _)
  | cons u ts ih =>
    intro items hmem
    rw [List.foldl_cons]
    rcases List.mem_cons.mp hmem with rfl | hmem'
    · have hl := mem_keys_lines (pySplitlines t) items hline
      exact ⟨mem_keys_foldl_texts ts _ _ hl.1, mem_keys_foldl_texts ts _ _ hl.2⟩
    · exact ih _ hmem'

/-- Witness for C6 on the one-recipe selection consisting of the sample
line itself. -/
theorem shopping_list_sample_phrases_witness :
    ("2 cups tomato, 1 onion".data ∈ ["2 cups tomato, 1 onion".data]) ∧
    ("2 cups tomato, 1 onion".data ∈ pySplitlines ("2 cups tomato, 1 onion".data)) ∧
    ("2 cups tomato".data ∈
      (extractShoppingList ["2 cups tomato, 1 onion".data]).map Prod.fst ∧
     "1 onion".data ∈
      (extractShoppingList ["2 cups tomato, 1 onion".data]).map Prod.fst) :=
  ⟨by decide, by decide,
   shopping_list_sample_phrases ["2 cups tomato, 1 onion".data]
     ("2 cups tomato, 1 onion".data) (by decide) (by decide)⟩

/-- Folding over a filtered list is folding over the whole list with the
step guarded by the filter predicate. -/
theorem foldl_filter_eq {α β : Type} (p : α → Bool) (g : β → α → β) :
    ∀ (l : List α) (init : β),
      (l.filter p).foldl g init =
        l.foldl (fun acc x => if p x then g acc x else acc) init
  | [], _ => rfl
  | a :: t, init => by
    by_cases h : p a = true
    · simp only [List.filter_cons, h, if_true, List.foldl_cons]
      exact foldl_filter_eq p g t (g init a)
    · simp only [List.filter_cons, h, if_false, List.foldl_cons, Bool.false_eq_true]
      exact foldl_filter_eq p g t init

/-- The Shopping List page loop equals the pure extraction applied to
exactly the texts whose title is selected. -/
theorem buildShoppingList_eq_extract (recipes selected : List (List Char)) :
    buildShoppingList recipes selected =
      extractShoppingList
        (recipes.filter fun t => selected.contains (firstLine t)) := by
  unfold buildShoppingList extractShoppingList
  rw [foldl_filter_eq]

/-- C7: the extraction is a deterministic function of the selected recipe
texts: any two runs whose selections pick the same sequence of texts produce
identical mappings — the same keys with the same occurrence counts in the
same first-appearance order, the mapping being an insertion-ordered
association list. -/
theorem shopping_list_deterministic
    (recipes1 selected1 recipes2 selected2 : List (List Char))
    (h : recipes1.filter (fun t => selected1.contains (firstLine t)) =
         recipes2.filter (fun t => selected2.contains (firstLine t))) :
    buildShoppingList recipes1 selected1 = buildShoppingList recipes2 selected2 := by
  rw [buildShoppingList_eq_extract, buildShoppingList_eq_extract, h]

/-- Witness for C7: two textually different recipe lists whose selections
pick the same single text. -/
theorem shopping_list_deterministic_witness :
    (["t1\n1 cup rice".data, "t2\nsalt".data].filter
        (fun t => ["t1".data].contains (firstLine t)) =
      ["t1\n1 cup rice".data].filter
        (fun t => ["t1".data].contains (firstLine t))) ∧
    buildShoppingList ["t1\n1 cup rice".data, "t2\nsalt".data] ["t1".data] =
      buildShoppingList ["t1\n1 cup rice".data] ["t1".data] :=
  ⟨by decide,
   shopping_list_deterministic ["t1\n1 cup rice".data, "t2\nsalt".data] ["t1".data]
     ["t1\n1 cup rice".data] ["t1".data] (by decide)⟩

/-- Dropping a prefix by a predicate is idempotent. -/
theorem dropWhile_dropWhile {α : Type} (p : α → Bool) (l : List α) :
    (l.dropWhile p).dropWhile p = l.dropWhile p := by
  induction l with
  | nil => rfl
  | cons a t ih =>
    by_cases h : p a = true
    · rw [List.dropWhile_cons_of_pos h]
      exact ih
    · rw [List.dropWhile_cons_of_neg (by simp [h])]
      exact List.dropWhile_cons_of_neg (by simp [h])

/-- A list fixed by `dropWhile p` has a head failing `p`. -/
theorem head?_of_dropWhile_eq_self {α : Type} {p : α → Bool} {l : List α}
    (h : l.dropWhile p = l) : ∀ {c}, l.head? = some c → p c = false := by
  intro c hc
  cases l with
  | nil => cases hc
  | cons a t =>
    injection hc with hca
    by_cases hpa : p a = true
    · rw [List.dropWhile_cons_of_pos hpa] at h
      have hle := (List.dropWhile_sublist (l := t) p).length_le
      have hlen := congrArg List.length h
      rw [List.length_cons] at hlen
      omega
    · rw [← hca]
      exact eq_false_of_ne_true hpa

/-- A list whose head fails `p` is fixed by `dropWhile p`. -/
theorem dropWhile_eq_self_of_head? {α : Type} {p : α → Bool} {l : List α}
    (h : ∀ c, l.head? = some c → p c = false) : l.dropWhile p = l := by
  cases l with
  | nil => rfl
  | cons a t => exact List.dropWhile_cons_of_neg (by simp [h a rfl])

/-- Stripping the tail of a list already stripped at the head leaves a list
still stripped at the head. -/
theorem head_stripped_after_tail_strip {α : Type} (p : α → Bool) (X : List α)
    (hX : X.dropWhile p = X) :
    ((X.reverse.dropWhile p).reverse).dropWhile p = (X.reverse.dropWhile p).reverse := by
  apply dropWhile_eq_self_of_head?
  intro c hc
  have hsplit : X = (X.reverse.dropWhile p).reverse ++ (X.reverse.takeWhile p).reverse := by
    have h1 : X.reverse.takeWhile p ++ X.reverse.dropWhile p = X.reverse :=
      List.takeWhile_append_dropWhile p X.reverse
    calc X = X.reverse.reverse := (List.reverse_reverse X).symm
      _ = (X.reverse.takeWhile p ++ X.reverse.dropWhile p).reverse := by rw [h1]
      _ = (X.reverse.dropWhile p).reverse ++ (X.reverse.takeWhile p).reverse :=
          List.reverse_append _ _
  have hXc : X.head? = some c := by
    rw [hsplit, List.head?_append, hc]
    rfl
  exact head?_of_dropWhile_eq_self hX hXc

/-- Python `strip` is idempotent. -/
theorem pyStrip_idem (l : List Char) : pyStrip (pyStrip l) = pyStrip l := by
  unfold pyStrip
  generalize hA : l.dropWhile isSpaceChar = A
  have hAself : A.dropWhile isSpaceChar = A := by
    rw [← hA]
    exact dropWhile_dropWhile _ _
  rw [head_stripped_after_tail_strip isSpaceChar A hAself, List.reverse_reverse,
    dropWhile_dropWhile]

/-- A non-empty run of characters all failing `p` that occurs inside `l`
still occurs inside `l.dropWhile p`. -/
theorem infix_dropWhile {α : Type} (p : α → Bool) (mid : List α) (hne : mid ≠ [])
    (hmid : ∀ c ∈ mid, p c = false) :
    ∀ {l : List α}, mid <:+: l → mid <:+: l.dropWhile p := by
  rintro l ⟨s, t, rfl⟩
  induction s with
  | nil =>
    cases mid with
    | nil => exact absurd rfl hne
    | cons c m =>
      rw [List.nil_append, List.cons_append,
        List.dropWhile_cons_of_neg (by simp [hmid c (List.mem_cons_self c m)])]
      exact ⟨[], t, by simp⟩
  | cons a s' ih =>
    rw [List.cons_append, List.cons_append]
    by_cases hpa : p a = true
    · rw [List.dropWhile_cons_of_pos hpa]
      exact ih
    · rw [List.dropWhile_cons_of_neg hpa]
      exact List.infix_cons ⟨s', t, rfl⟩

/-- A non-empty run of non-whitespace characters inside `l` survives
`pyStrip`. -/
theorem infix_pyStrip (mid : List Char) (hne : mid ≠ [])
    (hmid : ∀ c ∈ mid, isSpaceChar c = false) {l : List Char}
    (h : mid <:+: l) : mid <:+: pyStrip l := by
  unfold pyStrip
  have h1 := infix_dropWhile isSpaceChar mid hne hmid h
  have h2 : mid.reverse <:+: (l.dropWhile isSpaceChar).reverse := h1.reverse
  have hner : mid.reverse ≠ [] := by simpa using hne
  have hmidr : ∀ c ∈ mid.reverse, isSpaceChar c = false := fun c hc =>
    hmid c (List.mem_reverse.mp hc)
  have h3 := infix_dropWhile isSpaceChar mid.reverse hner hmidr h2
  have h4 := h3.reverse
  rw [List.reverse_reverse] at h4
  exact h4

/-- A run inside a mapped list is the image of a run inside the list. -/
theorem exists_of_infix_map {α β : Type} {f : α → β} {k : List β} {l : List α}
    (h : k <:+: l.map f) : ∃ mid, mid <:+: l ∧ mid.map f = k := by
  obtain ⟨s, t, hst⟩ := h
  have hst' : l.map f = s ++ (k ++ t) := by rw [← hst, List.append_assoc]
  obtain ⟨a, b, hab, has, hbs⟩ := List.map_eq_append_iff.mp hst'
  obtain ⟨c, d, hcd, hcs, hds⟩ := List.map_eq_append_iff.mp hbs
  exact ⟨c, ⟨a, d, by rw [hab, hcd]; exact List.append_assoc a c d⟩, hcs⟩

/-- Every ingredient-name keyword is at least 3 characters of
non-whitespace. -/
theorem nameKeywords_facts :
    ∀ kw ∈ nameKeywords, 3 ≤ kw.length ∧ ∀ c ∈ kw, isSpaceChar c = false := by
  decide

/-- A line matching an ingredient-name keyword still has length at least 3
after stripping: the matched keyword is a non-whitespace run that stripping
cannot remove. -/
theorem nameKeyword_line_length (line : List Char)
    (h : (nameKeywords.any fun k => decide (k <:+: line.map Char.toLower)) = true) :
    3 ≤ (pyStrip line).length := by
  obtain ⟨kw, hkw, hinf⟩ := List.any_eq_true.mp h
  have hinf' : kw <:+: line.map Char.toLower := of_decide_eq_true hinf
  obtain ⟨mid, hmid_inf, hmid_map⟩ := exists_of_infix_map hinf'
  obtain ⟨hlen, hsp⟩ := nameKeywords_facts kw hkw
  have hmidlen : mid.length = kw.length := by rw [← hmid_map, List.length_map]
  have hmidsp : ∀ c ∈ mid, isSpaceChar c = false := by
    intro c hc
    have hmem : Char.toLower c ∈ kw := hmid_map ▸ List.mem_map_of_mem Char.toLower hc
    have h1 : isSpaceChar (Char.toLower c) = false := hsp _ hmem
    rw [isSpaceChar_toLower] at h1
    exact h1
  have hne : mid ≠ [] := by
    intro h0
    rw [h0] at hmidlen
    simp only [List.length_nil] at hmidlen
    omega
  have hle := (infix_pyStrip mid hne hmidsp hmid_inf).length_le
  omega

/-- Bumping a trimmed key of length at least 3 preserves the mapping
invariant. -/
theorem goodItems_bumpItem {items : List (List Char × ℕ)} {k : List Char}
    (hitems : GoodItems items) (hk : pyStrip k = k ∧ 3 ≤ k.length) :
    GoodItems (bumpItem items k) := by
  unfold bumpItem
  split
  · intro e he
    obtain ⟨e', he', heq⟩ := List.mem_map.mp he
    obtain ⟨hkey, hcnt⟩ := hitems e' he'
    by_cases hek : e'.1 = k
    · rw [← heq, if_pos hek]
      exact ⟨hkey, Nat.le_add_left 1 e'.2⟩
    · rw [← heq, if_neg hek]
      exact ⟨hkey, hcnt⟩
  · intro e he
    rcases List.mem_append.mp he with h1 | h2
    · exact hitems e h1
    · rw [List.mem_singleton] at h2
      subst h2
      exact ⟨hk, le_refl 1⟩

/-- The fragment loop of branch 1 preserves the invariant: only stripped
fragments longer than 2 characters are counted. -/
theorem goodItems_fragments :
    ∀ (parts : List (List Char)) (items : List (List Char × ℕ)),
      GoodItems items → (∀ p ∈ parts, pyStrip p = p) →
      GoodItems (parts.foldl
        (fun it p => if 2 < p.length then bumpItem it p else it) items)
  | [], items, hi, _ => hi
  | p :: parts, items, hi, hp => by
    rw [List.foldl_cons]
    apply goodItems_fragments parts _ _
      (fun q hq => hp q (List.mem_cons_of_mem p hq))
    split
    · rename_i hlen
      exact goodItems_bumpItem hi ⟨hp p (List.mem_cons_self p parts), by omega⟩
    · exact hi

/-- Processing any line preserves the invariant. -/
theorem goodItems_processLine (items : List (List Char × ℕ)) (line : List Char)
    (hi : GoodItems items) : GoodItems (processLine items line) := by
  unfold processLine
  dsimp only
  split
  · apply goodItems_fragments _ items hi
    intro p hp
    obtain ⟨q, hq, rfl⟩ := List.mem_map.mp hp
    exact pyStrip_idem q
  · split
    · rename_i hname
      exact goodItems_bumpItem hi ⟨pyStrip_idem line, nameKeyword_line_length line hname⟩
    · exact hi

/-- Folding the line loop preserves the invariant. -/
theorem goodItems_lines :
    ∀ (lines : List (List Char)) (items : List (List Char × ℕ)),
      GoodItems items → GoodItems (lines.foldl processLine items)
  | [], _, hi => hi
  | a :: lines, items, hi => by
    rw [List.foldl_cons]
    exact goodItems_lines lines _ (goodItems_processLine items a hi)

/-- Folding the per-text loop preserves the invariant. -/
theorem goodItems_texts :
    ∀ (ts : List (List Char)) (items : List (List Char × ℕ)),
      GoodItems items →
      GoodItems (ts.foldl (fun it u => (pySplitlines u).foldl processLine it) items)
  | [], _, hi => hi
  | u :: ts, items, hi => by
    rw [List.foldl_cons]
    exact goodItems_texts ts _ (goodItems_lines (pySplitlines u) items hi)

/-- C10: every key of the mapping produced by the shopping-list extractor is
a whitespace-trimmed string of length at least 3, and every occurrence count
is at least 1. -/
theorem extract_keys_wellformed (texts : List (List Char)) (e : List Char × ℕ)
    (he : e ∈ extractShoppingList texts) :
    (pyStrip e.1 = e.1 ∧ 3 ≤ e.1.length) ∧ 1 ≤ e.2 := by
  have hg : GoodItems (extractShoppingList texts) := by
    unfold extractShoppingList
    exact goodItems_texts texts [] (fun x hx => absurd hx (List.not_mem_nil x))
  exact hg e he

/-- Witness for C10 on the sample extraction. -/
theorem extract_keys_wellformed_witness :
    (("2 cups tomato".data, 1) ∈ extractShoppingList ["2 cups tomato, 1 onion".data]) ∧
    ((pyStrip ("2 cups tomato".data) = "2 cups tomato".data ∧
      3 ≤ ("2 cups tomato".data).length) ∧ 1 ≤ 1) :=
  ⟨by decide,
   extract_keys_wellformed ["2 cups tomato, 1 onion".data]
     ("2 cups tomato".data, 1) (by decide)⟩
